import Mathlib

/-!
Verification of the LogViewer discovery/registry core (`pkg/files.go`) against
its natural-language specification.

The Go code is shallowly embedded: pure string manipulation becomes Lean
functions on `String`; file-system and transport effects (`os.Open`,
`sshOpenFile`, `FilesByPattern` listings) are abstracted into an `Env` record
of oracle functions, so each Go function becomes a pure Lean function of the
environment; Go standard-library primitives that the code calls but does not
define (gzip decompression, the `x-gzip` signature of
`http.DetectContentType`) are abstracted as parameters or modelled by the
single aspect the code consults; fallible Go code returning `(T, error)`
becomes `Except IOErr T`.
-/

namespace Gol

/-- Errors returned by I/O primitives. `eof` stands for Go's `io.EOF`
sentinel (compared via `errors.Is(err, io.EOF)` in `GetFileInfos`); every
other error is carried as an opaque message. -/
inductive IOErr
  | eof
  | other (msg : String)
deriving DecidableEq, Repr

/-- The `FileInfo` record built by `GetFileInfos` (fields as constructed at
`pkg/files.go` line 235 and described in spec §3; the Go field `Type` is
spelled `type` here because `Type` is reserved in Lean). -/
structure FileInfo where
  FilePath : String
  LinesCount : Nat
  FileSize : Nat
  type : String
  Host : String
deriving DecidableEq, Repr

/-- SSH connection parameters (`pkg/files.go` lines 241-247). -/
structure SSHConfig where
  Host : String
  Port : String
  User : String
  Password : String
  PrivateKeyPath : String
deriving DecidableEq, Repr

/-- Parsed remote path spec (`pkg/files.go` lines 249-256). -/
structure SSHPathConfig where
  Host : String
  Port : String
  User : String
  Password : String
  PrivateKeyPath : String
  FilePath : String
deriving DecidableEq, Repr

/-- Value of the `TypeFile` constant: the string tag `"file"` (the constant
is declared outside the provided core file; its value is fixed by the
frontend's comparisons `curr.type === "file"` and spec §3). -/
def TypeFile : String := "file"

/-- Value of the `TypeSSH` constant: the string tag `"ssh"`. -/
def TypeSSH : String := "ssh"

/-- Value of the `TypeStdin` constant: the string tag `"stdin"`. -/
def TypeStdin : String := "stdin"

/-- Environment of effectful primitives used by the discovery code.
`listFiles` is the outcome of `FilesByPattern` (local walk/glob or remote
`ls`), `readFile` the byte content obtained by `os.Open`/`sshOpenFile`
(materialized remote reads included), and `gunzip` the standard library's
gzip decompression (`gzip.NewReader` + reads), returning `none` when the
stream is not valid gzip. -/
structure Env where
  listFiles : String → Except IOErr (List String)
  readFile : String → Except IOErr (List Nat)
  gunzip : List Nat → Option (List Nat)

/-- IsGzip checks if the given buffer starts with the gzip magic number
(`pkg/files.go` lines 82-84). -/
def IsGzip : List Nat → Bool
  | b0 :: b1 :: _ => b0 == 0x1f && b1 == 0x8b
  | _ => false

/-- Helper for `utf8Valid`: a continuation byte within an accepted range. -/
def utf8Cont (b lo hi : Nat) : Bool := lo ≤ b && b ≤ hi

/-- Embedding of Go's `utf8.Valid`: the byte list is a well-formed UTF-8
encoding (overlong encodings, surrogates and truncated sequences rejected,
following the accept ranges of `unicode/utf8`). -/
def utf8Valid : List Nat → Bool
  | [] => true
  | b :: rest =>
    if b < 0x80 then utf8Valid rest
    else if b < 0xC2 then false
    else if b ≤ 0xDF then
      match rest with
      | c1 :: r => utf8Cont c1 0x80 0xBF && utf8Valid r
      | [] => false
    else if b ≤ 0xEF then
      let lo1 := if b = 0xE0 then 0xA0 else 0x80
      let hi1 := if b = 0xED then 0x9F else 0xBF
      match rest with
      | c1 :: c2 :: r => utf8Cont c1 lo1 hi1 && utf8Cont c2 0x80 0xBF && utf8Valid r
      | _ => false
    else if b ≤ 0xF4 then
      let lo1 := if b = 0xF0 then 0x90 else 0x80
      let hi1 := if b = 0xF4 then 0x8F else 0xBF
      match rest with
      | c1 :: c2 :: c3 :: r =>
        utf8Cont c1 lo1 hi1 && utf8Cont c2 0x80 0xBF && utf8Cont c3 0x80 0xBF && utf8Valid r
      | _ => false
    else false

/-- IsReadableFile checks if the file is readable and optionally checks for
valid UTF-8 encoded content (`pkg/files.go` lines 22-79). A zero-size file
is immediately readable; otherwise the first 512 bytes are inspected, a
gzip-magic prefix switches inspection to the decompressed leading bytes, and
the optional UTF-8 check applies to whichever buffer was read. -/
def IsReadableFile (env : Env) (filename : String) (checkUTF8 : Bool) : Except IOErr Bool :=
  match env.readFile filename with
  | .error e => .error e
  | .ok content =>
    if content.length = 0 then .ok true
    else
      let buffer := content.take 512
      if IsGzip buffer then
        match env.gunzip content with
        | none => .error (IOErr.other "gzip read failed")
        | some d =>
          let buffer2 := d.take 512
          if checkUTF8 then .ok (utf8Valid buffer2) else .ok true
      else
        if checkUTF8 then .ok (utf8Valid buffer) else .ok true

/-- The one aspect of `http.DetectContentType` consulted by `FileStats`
(`pkg/files.go` line 154): whether the sniffed buffer matches the exact
three-byte `application/x-gzip` signature `1F 8B 08`. `detectMimeType`
passes the (zero-padded) 512-byte read buffer; padding cannot make the
nonzero signature match, so comparing the first three content bytes is
equivalent. -/
def isGzipMime (buffer : List Nat) : Bool :=
  buffer.take 3 == [0x1f, 0x8b, 0x08]

/-- Maximal token size given to the line scanner (`pkg/files.go` line 169:
a 1 MiB buffer). -/
def maxTokenSize : Nat := 1024 * 1024

/-- Splits a byte stream at newline bytes (`0x0A`), keeping empty segments:
the segment decomposition that `bufio.ScanLines` walks through. -/
def splitLines : List Nat → List (List Nat)
  | [] => [[]]
  | b :: rest =>
    let r := splitLines rest
    if b = 10 then [] :: r
    else
      match r with
      | s :: ss => (b :: s) :: ss
      | [] => [[b]]

/-- Line counting of the `scanner.Scan` loop in `FileStats`
(`pkg/files.go` lines 165-178): one count per newline-terminated segment,
plus one for a non-empty final segment without a trailing newline; a
segment longer than the 1 MiB buffer makes the scanner fail and surfaces
as the scanner error. -/
def scanLinesCount (d : List Nat) : Except IOErr Nat :=
  let segs := splitLines d
  if segs.any (fun s => maxTokenSize < s.length) then
    .error (IOErr.other "bufio.Scanner: token too long")
  else if segs.getLast? = some ([] : List Nat) then .ok (segs.length - 1)
  else .ok segs.length

/-- FileStats returns the number of lines and size of the file at the given
path (`pkg/files.go` lines 134-187): open, sniff the MIME type from a
512-byte prefix (an empty file makes that read fail with `io.EOF`), wrap in
a gzip reader when the sniff says `application/x-gzip`, count lines of the
(possibly decompressed) stream, and report the on-disk size from `Stat`. -/
def FileStats (env : Env) (filePath : String) : Except IOErr (Nat × Nat) :=
  match env.readFile filePath with
  | .error e => .error e
  | .ok content =>
    if content.isEmpty then .error IOErr.eof
    else
      let dataE : Except IOErr (List Nat) :=
        if isGzipMime (content.take 512) then
          match env.gunzip content with
          | none => .error (IOErr.other "gzip: invalid header")
          | some d => .ok d
        else .ok content
      match dataE with
      | .error e => .error e
      | .ok d =>
        match scanLinesCount d with
        | .error e => .error e
        | .ok n => .ok (n, content.length)

/-- Log messages emitted by `GetFileInfos` (the `slog` calls at
`pkg/files.go` lines 192-222), modelled as an explicit output so that
"a warning is recorded" claims are statable. -/
inductive LogEntry
  | errPatternExpansion
  | errNoFilesFound
  | warnLimit
  | errProbe (p : String)
  | warnNotText (p : String)
  | warnEmpty (p : String)
  | errStats (p : String)
deriving DecidableEq, Repr

/-- Record construction of the loop body of `GetFileInfos`
(`pkg/files.go` lines 226-235): `t` starts as `TypeFile` and `h` empty, a
remote source switches them to `TypeSSH` and the configured host, and a path
equal to `GlobalPipeTmpFilePath` (passed here as `pipe`) re-tags the record
as `TypeStdin` without touching `h`. -/
def mkFileInfo (p : String) (lc fs : Nat) (isRemote : Bool) (cfg : SSHConfig)
    (pipe : String) : FileInfo :=
  let t := if isRemote then TypeSSH else TypeFile
  let h := if isRemote then cfg.Host else ""
  let t := if p = pipe then TypeStdin else t
  { FilePath := p, LinesCount := lc, FileSize := fs, type := t, Host := h }

/-- The per-candidate loop of `GetFileInfos` (`pkg/files.go` lines 205-236).
The first component is `none` exactly when the Go loop hits
`return nil` (a probe error); otherwise it is the accumulated records.
The second component collects the log messages emitted before returning. -/
def processPaths (env : Env) (isRemote : Bool) (cfg : SSHConfig) (pipe : String) :
    List String → Option (List FileInfo) × List LogEntry
  | [] => (some [], [])
  | p :: rest =>
    match IsReadableFile env p false with
    | .error _ => (none, [LogEntry.errProbe p])
    | .ok false =>
      let r := processPaths env isRemote cfg pipe rest
      (r.fst, LogEntry.warnNotText p :: r.snd)
    | .ok true =>
      match FileStats env p with
      | .error IOErr.eof =>
        let r := processPaths env isRemote cfg pipe rest
        (r.fst.map (fun infos => mkFileInfo p 0 0 isRemote cfg pipe :: infos),
         LogEntry.warnEmpty p :: r.snd)
      | .error _ =>
        let r := processPaths env isRemote cfg pipe rest
        (r.fst, LogEntry.errStats p :: r.snd)
      | .ok (lc, fs) =>
        let r := processPaths env isRemote cfg pipe rest
        (r.fst.map (fun infos => mkFileInfo p lc fs isRemote cfg pipe :: infos), r.snd)

/-- GetFileInfos (`pkg/files.go` lines 189-238): expand the pattern, bail
out (returning no records) on an expansion error or an empty expansion,
truncate the candidate list to `limit` entries with a warning when it is
longer, then run the per-candidate loop; the Go `return nil` inside the
loop becomes the empty record list here. -/
def GetFileInfos (env : Env) (pattern : String) (limit : Nat) (isRemote : Bool)
    (cfg : SSHConfig) (pipe : String) : List FileInfo × List LogEntry :=
  match env.listFiles pattern with
  | .error _ => ([], [LogEntry.errPatternExpansion])
  | .ok filePaths =>
    if filePaths.length = 0 then ([], [LogEntry.errNoFilesFound])
    else
      let truncated :=
        if limit < filePaths.length then (filePaths.take limit, [LogEntry.warnLimit])
        else (filePaths, [])
      match processPaths env isRemote cfg pipe truncated.fst with
      | (some infos, logs) => (infos, truncated.snd ++ logs)
      | (none, logs) => ([], truncated.snd ++ logs)

/-- Splits a character list at every character satisfying `p`, keeping empty
pieces: the common core of Go's `strings.Split` (single-character separator)
and `strings.Fields`. -/
def splitChars (p : Char → Bool) : List Char → List (List Char)
  | [] => [[]]
  | c :: rest =>
    let r := splitChars p rest
    if p c then [] :: r
    else
      match r with
      | s :: ss => (c :: s) :: ss
      | [] => [[c]]

/-- Embedding of Go's `strings.Split` for the single-character separators
(`"@"`, `":"`, `"\n"`) used by this code. -/
def goSplitChar (sep : Char) (s : String) : List String :=
  (splitChars (fun c => c == sep) s.data).map String.mk

/-- Whether `pre` is an initial segment of `s`: Go's `strings.HasPrefix`
(spelled over character lists so that it evaluates in the kernel). -/
def startsWithChars : List Char → List Char → Bool
  | _, [] => true
  | [], _ :: _ => false
  | c :: cs, d :: ds => c == d && startsWithChars cs ds

/-- Go's `strings.HasPrefix` on strings. -/
def goStartsWith (s pre : String) : Bool := startsWithChars s.data pre.data

/-- Removal of the first `n` characters: with `n` the length of a matched
prefix this is Go's `strings.TrimPrefix`. -/
def goDrop (s : String) (n : Nat) : String := String.mk (s.data.drop n)

/-- Go's `strings.TrimSpace`: strip leading and trailing whitespace. -/
def goTrim (s : String) : String :=
  String.mk ((((s.data.dropWhile Char.isWhitespace).reverse).dropWhile Char.isWhitespace).reverse)

/-- Embedding of Go's `strings.Fields`: split around runs of whitespace,
dropping empty tokens. -/
def fields (s : String) : List String :=
  ((splitChars Char.isWhitespace s.data).filter (fun t => t ≠ [])).map String.mk

/-- Body of the option-extraction loop of `StringToSSHPathConfig`
(`pkg/files.go` lines 311-320): a `password=` token sets the password, a
`private_key=` token sets the key path, and any other token overwrites the
file path. -/
def applyPart (config : SSHPathConfig) (part : String) : SSHPathConfig :=
  if goStartsWith part "password=" then
    { config with Password := goDrop part 9 }
  else if goStartsWith part "private_key=" then
    { config with PrivateKeyPath := goDrop part 12 }
  else
    { config with FilePath := part }

/-- StringToSSHPathConfig (`pkg/files.go` lines 279-327) parses
`user@host[:port] [password=P] [private_key=K] /path`. The `HOME`
environment variable consulted for the default key path is passed as
`home`. Go's `nil, err` returns become `none`. -/
def StringToSSHPathConfig (home : String) (s : String) : Option SSHPathConfig :=
  let parts := fields s
  if parts.length < 2 then none
  else
    match parts with
    | [] => none
    | p0 :: rest =>
      match goSplitChar '@' p0 with
      | [user, hostPort] =>
        let userHost := goSplitChar ':' hostPort
        let host := userHost.headD ""
        let port := match userHost with | [_, pt] => pt | _ => "22"
        let config0 : SSHPathConfig :=
          { Host := host, Port := port, User := user, Password := "",
            PrivateKeyPath := home ++ "/.ssh/id_rsa", FilePath := "" }
        let config := rest.foldl applyPart config0
        if config.FilePath = "" then none else some config
      | _ => none

/-- An SSH authentication method as assembled by `sshConnect`: either
`ssh.Password(pw)` or `ssh.PublicKeys(signer)` (the signer is abstracted to
an index). -/
inductive AuthMethod
  | password (pw : String)
  | publicKeys (signer : Nat)
deriving DecidableEq, Repr

/-- Failure modes of `sshConnect`: the key file could not be read, the key
could not be parsed, or the dial failed because no method authenticated. -/
inductive ConnError
  | keyRead (e : IOErr)
  | keyParse
  | auth
deriving DecidableEq, Repr

/-- Modelled from the spec: `ssh.Dial` (external library, not part of this
repository) attempts the supplied authentication methods and the connection
succeeds exactly when at least one of them is accepted by the server
(spec §4.2: "Authentication tries password auth if a password is set, then
key-based auth if a private-key path is set; at least one must succeed or
connection fails"). The server's acceptance is abstracted as `accepts`. -/
def dialSucceeds (accepts : AuthMethod → Bool) (auths : List AuthMethod) : Bool :=
  auths.any accepts

/-- sshConnect (`pkg/files.go` lines 329-359): build the auth-method list
(password first when set; then the parsed private key when a path is set,
aborting on a read or parse failure), then dial. `readKey` and `parseKey`
abstract `os.ReadFile` and `ssh.ParsePrivateKey`. -/
def sshConnect (readKey : String → Except IOErr (List Nat))
    (parseKey : List Nat → Option Nat) (accepts : AuthMethod → Bool)
    (config : SSHConfig) : Except ConnError Unit :=
  let auth0 := if config.Password = "" then [] else [AuthMethod.password config.Password]
  let authE : Except ConnError (List AuthMethod) :=
    if config.PrivateKeyPath = "" then .ok auth0
    else
      match readKey config.PrivateKeyPath with
      | .error e => .error (ConnError.keyRead e)
      | .ok key =>
        match parseKey key with
        | none => .error ConnError.keyParse
        | some sg => .ok (auth0 ++ [AuthMethod.publicKeys sg])
  match authE with
  | .error e => .error e
  | .ok auth => if dialSucceeds accepts auth then .ok () else .error ConnError.auth

/-- sshFilesByPattern (`pkg/files.go` lines 395-414): run `ls <pattern>`
remotely; a `Run` error other than the session-already-started sentinel is
surfaced, otherwise the captured stdout is trimmed of surrounding
whitespace and split on newlines. The session outcome is abstracted as
`runErr` (`none` for success) and the sentinel string — a constant declared
outside the provided core file — as `errMsgSessionAlreadyStarted`. -/
def sshFilesByPattern (errMsgSessionAlreadyStarted : String) (runErr : Option String)
    (stdout : String) : Except IOErr (List String) :=
  match runErr with
  | some msg =>
    if msg ≠ errMsgSessionAlreadyStarted then Except.error (IOErr.other msg)
    else Except.ok (goSplitChar '\n' (goTrim stdout))
  | none => Except.ok (goSplitChar '\n' (goTrim stdout))

/-- The closure `eq` passed to `slices.CompactFunc` by `UniqueFileInfos`
(`pkg/files.go` lines 417-419): records compare equal on the
`(FilePath, Type, Host)` triple. -/
def eqFileInfo (a b : FileInfo) : Bool :=
  a.FilePath == b.FilePath && a.type == b.type && a.Host == b.Host

/-- Tail worker of `compactFunc`: Go's `slices.CompactFunc` keeps element
`s[k]` exactly when `eq(s[k], s[k-1])` is false, comparing each element with
its immediate predecessor in the input. -/
def compactAux (eq : FileInfo → FileInfo → Bool) (prev : FileInfo) :
    List FileInfo → List FileInfo
  | [] => []
  | b :: rest =>
    if eq prev b then compactAux eq b rest
    else b :: compactAux eq b rest

/-- Embedding of Go's `slices.CompactFunc`: replace consecutive runs of
`eq`-equal elements by the first element of the run. -/
def compactFunc (eq : FileInfo → FileInfo → Bool) : List FileInfo → List FileInfo
  | [] => []
  | a :: rest => a :: compactAux eq a rest

/-- UniqueFileInfos (`pkg/files.go` lines 416-421). -/
def UniqueFileInfos (fileInfos : List FileInfo) : List FileInfo :=
  compactFunc eqFileInfo fileInfos

/-- A token of a remote spec that is neither `password=`- nor
`private_key=`-prefixed: such tokens land in the `else` branch of the
extraction loop of `StringToSSHPathConfig` and overwrite the file path. -/
def isBareToken (part : String) : Bool :=
  !(goStartsWith part "password=") && !(goStartsWith part "private_key=")

/-! ## Concrete sample environments and records used by witnesses and
counterexamples -/

/-- Byte content of a small gzip member (magic `1F 8B`, deflate method `08`). -/
def gzBytes : List Nat := [0x1f, 0x8b, 0x08, 0x00]

/-- Byte content of the decompressed equivalent, the text `"hi\n"`. -/
def plainBytes : List Nat := [104, 105, 10]

/-- Environment holding the gzip sample at `/g` and its decompressed
equivalent at `/d`. -/
def envGz : Env where
  listFiles := fun _ => Except.ok ["/g", "/d"]
  readFile := fun p =>
    if p = "/g" then Except.ok gzBytes
    else if p = "/d" then Except.ok plainBytes
    else Except.error (IOErr.other "no such file")
  gunzip := fun b => if b = gzBytes then some plainBytes else none

/-- Environment holding a single zero-byte file at `/e`. -/
def envEmptyFile : Env where
  listFiles := fun _ => Except.ok ["/e"]
  readFile := fun p => if p = "/e" then Except.ok [] else Except.error (IOErr.other "no such file")
  gunzip := fun _ => none

/-- Environment where probing `/a` fails with an I/O error while `/b` is a
readable one-line text file. -/
def envProbeErr : Env where
  listFiles := fun _ => Except.ok ["/a", "/b"]
  readFile := fun p =>
    if p = "/a" then Except.error (IOErr.other "permission denied")
    else Except.ok [97, 10]
  gunzip := fun _ => none

/-- Environment whose remote listing returns exactly the path that is also
the captured-pipe temporary file path, with readable one-line content. -/
def envRemotePipe : Env where
  listFiles := fun _ => Except.ok ["/tmp/GOL-pipe"]
  readFile := fun _ => Except.ok [97, 10]
  gunzip := fun _ => none

/-- Environment expanding a pattern to three readable one-line files. -/
def envThreeFiles : Env where
  listFiles := fun _ => Except.ok ["/l1", "/l2", "/l3"]
  readFile := fun _ => Except.ok [97, 10]
  gunzip := fun _ => none

/-- Sample SSH configuration with a non-empty host. -/
def cfgH : SSHConfig :=
  { Host := "example.org", Port := "22", User := "u", Password := "", PrivateKeyPath := "" }

/-- A sample local record. -/
def fiA : FileInfo :=
  { FilePath := "/a", LinesCount := 1, FileSize := 1, type := "file", Host := "" }

/-- A second sample local record with a different registry key. -/
def fiB : FileInfo :=
  { FilePath := "/b", LinesCount := 1, FileSize := 1, type := "file", Host := "" }

/-- Server that accepts only password authentication. -/
def acceptsPasswordOnly : AuthMethod → Bool
  | AuthMethod.password _ => true
  | _ => false

/-- Server that accepts only public-key authentication. -/
def acceptsKeyOnly : AuthMethod → Bool
  | AuthMethod.publicKeys _ => true
  | _ => false

/-- Key-file reader that always fails. -/
def readKeyFail : String → Except IOErr (List Nat) :=
  fun _ => Except.error (IOErr.other "no such file")

/-- Key-file reader that always succeeds with a one-byte key. -/
def readKeyOk : String → Except IOErr (List Nat) := fun _ => Except.ok [1]

/-- Key parser that always succeeds. -/
def parseKeyOk : List Nat → Option Nat := fun _ => some 0

/-- Configuration with both a password and a private-key path set. -/
def cfgPwKey : SSHConfig :=
  { Host := "h", Port := "22", User := "u", Password := "pw", PrivateKeyPath := "/k" }

/-- Configuration with only a private-key path set. -/
def cfgKeyOnly : SSHConfig :=
  { Host := "h", Port := "22", User := "u", Password := "", PrivateKeyPath := "/k" }

/-! ## Theorems -/

/-- C6: for every zero-byte candidate file, `IsReadableFile` returns `true`
regardless of the UTF-8-check flag, `FileStats` signals the end-of-stream
condition, and the record `GetFileInfos` builds for it has `LinesCount = 0`
and `FileSize = 0` — the end-of-stream is normalized to an empty-file
result, not an error. -/
theorem emptyFile_readable_and_zero_stats (env : Env) (pat p pipe : String)
    (limit : Nat) (isRemote u : Bool) (cfg : SSHConfig)
    (hread : env.readFile p = Except.ok [])
    (hls : env.listFiles pat = Except.ok [p])
    (hlim : 1 ≤ limit) :
    IsReadableFile env p u = Except.ok true
    ∧ FileStats env p = Except.error IOErr.eof
    ∧ ∃ fi, (GetFileInfos env pat limit isRemote cfg pipe).fst = [fi]
        ∧ fi.FilePath = p ∧ fi.LinesCount = 0 ∧ fi.FileSize = 0 := by
  have hnl : ¬ (limit < 1) := by omega
  refine ⟨?_, ?_, ?_⟩
  · simp [IsReadableFile, hread]
  · simp [FileStats, hread]
  · refine ⟨mkFileInfo p 0 0 isRemote cfg pipe, ?_, rfl, rfl, rfl⟩
    simp [GetFileInfos, hls, hnl, processPaths, IsReadableFile, hread, FileStats]

/-- Witness for `emptyFile_readable_and_zero_stats`: the zero-byte file
`/e` of `envEmptyFile`, probed with the UTF-8 check enabled. -/
theorem emptyFile_readable_and_zero_stats_witness :
    IsReadableFile envEmptyFile "/e" true = Except.ok true
    ∧ FileStats envEmptyFile "/e" = Except.error IOErr.eof
    ∧ ∃ fi, (GetFileInfos envEmptyFile "/e" 1000 false cfgH "/tmp/GOL-pipe").fst = [fi]
        ∧ fi.FilePath = "/e" ∧ fi.LinesCount = 0 ∧ fi.FileSize = 0 :=
  emptyFile_readable_and_zero_stats envEmptyFile "/e" "/e" "/tmp/GOL-pipe" 1000 false true cfgH
    rfl rfl (by omega)

/-- C3: gzip transparency of stats. For a gzip-compressed text file and its
decompressed equivalent placed at two paths, `FileStats` computes the same
`LinesCount` for both, and for the compressed one it reports the on-disk
(compressed) byte size from the stat call, not the decompressed size. -/
theorem fileStats_gzip_transparency (env : Env) (pG pD : String) (G D : List Nat)
    (hG : env.readFile pG = Except.ok G) (hD : env.readFile pD = Except.ok D)
    (hgz : env.gunzip G = some D)
    (hmG : isGzipMime (G.take 512) = true)
    (hmD : isGzipMime (D.take 512) = false)
    (hDne : D ≠ []) :
    Except.map Prod.fst (FileStats env pG) = Except.map Prod.fst (FileStats env pD)
    ∧ ∀ n sz, FileStats env pG = Except.ok (n, sz) → sz = G.length := by
  have hGne : G ≠ [] := by
    intro hnil
    rw [hnil] at hmG
    simp [isGzipMime] at hmG
  have e1 : FileStats env pG =
      (match scanLinesCount D with
       | .error e => .error e
       | .ok n => .ok (n, G.length)) := by
    simp [FileStats, hG, hGne, hmG, hgz]
  have e2 : FileStats env pD =
      (match scanLinesCount D with
       | .error e => .error e
       | .ok n => .ok (n, D.length)) := by
    simp [FileStats, hD, hDne, hmD]
  constructor
  · rw [e1, e2]
    cases scanLinesCount D <;> simp [Except.map]
  · intro n sz hok
    rw [e1] at hok
    cases h : scanLinesCount D with
    | error e => rw [h] at hok; simp at hok
    | ok m =>
      rw [h] at hok
      simp at hok
      exact hok.2.symm

/-- Witness for `fileStats_gzip_transparency`: the sample gzip member at
`/g` and its decompressed text at `/d` in `envGz`. -/
theorem fileStats_gzip_transparency_witness :
    Except.map Prod.fst (FileStats envGz "/g") = Except.map Prod.fst (FileStats envGz "/d")
    ∧ ∀ n sz, FileStats envGz "/g" = Except.ok (n, sz) → sz = gzBytes.length :=
  fileStats_gzip_transparency envGz "/g" "/d" gzBytes plainBytes
    rfl rfl rfl (by decide) (by decide) (by decide)

/-- C4: Round-trip remote-spec parsing. `StringToSSHPathConfig` applied to
`"alice@example.com:2222 password=pw /var/log/app.log"` yields User `alice`,
Host `example.com`, Port `2222`, Password `pw`, FilePath `/var/log/app.log`;
applied to `"bob@host /var/log/x.log"` it yields Port `"22"` and
PrivateKeyPath `$HOME/.ssh/id_rsa` by default (for every value of the HOME
environment variable). -/
theorem stringToSSHPathConfig_roundtrip_examples (home : String) :
    StringToSSHPathConfig home "alice@example.com:2222 password=pw /var/log/app.log" =
      some { Host := "example.com", Port := "2222", User := "alice", Password := "pw",
             PrivateKeyPath := home ++ "/.ssh/id_rsa", FilePath := "/var/log/app.log" }
    ∧ StringToSSHPathConfig home "bob@host /var/log/x.log" =
      some { Host := "host", Port := "22", User := "bob", Password := "",
             PrivateKeyPath := home ++ "/.ssh/id_rsa", FilePath := "/var/log/x.log" } :=
  ⟨rfl, rfl⟩

/-- C10: for a remote listing whose command output is empty after trimming
surrounding whitespace, `sshFilesByPattern` returns a one-element list
containing the empty string rather than an empty list. -/
theorem sshFilesByPattern_empty_output_singleton (em stdout : String)
    (h : goTrim stdout = "") :
    sshFilesByPattern em none stdout = Except.ok [""] := by
  simp [sshFilesByPattern, h, goSplitChar, splitChars]

/-- Witness for `sshFilesByPattern_empty_output_singleton` at the concrete
whitespace-only output `"  \n "`. -/
theorem sshFilesByPattern_empty_output_singleton_witness :
    sshFilesByPattern "sentinel" none "  \n " = Except.ok [""] :=
  sshFilesByPattern_empty_output_singleton "sentinel" "  \n " (by decide)

/-- The extraction loop keeps the last bare token as the file path: folding
`applyPart` leaves `FilePath` at the last token that matches neither known
prefix, or at its initial value when there is none. -/
theorem foldl_applyPart_filePath (l : List String) (config : SSHPathConfig) :
    (l.foldl applyPart config).FilePath =
      (l.filter isBareToken).getLastD config.FilePath := by
  induction l generalizing config with
  | nil => rfl
  | cons p rest ih =>
    rw [List.foldl_cons, ih, List.filter_cons]
    by_cases h1 : goStartsWith p "password=" = true
    · have hb : isBareToken p = false := by simp [isBareToken, h1]
      have ha : applyPart config p = { config with Password := goDrop p 9 } := by
        simp [applyPart, h1]
      rw [ha, hb, if_neg (by simp)]
    · by_cases h2 : goStartsWith p "private_key=" = true
      · have hb : isBareToken p = false := by simp [isBareToken, h2]
        have ha : applyPart config p = { config with PrivateKeyPath := goDrop p 12 } := by
          simp [applyPart, h1, h2]
        rw [ha, hb, if_neg (by simp)]
      · have hb : isBareToken p = true := by simp [isBareToken, h1, h2]
        have ha : applyPart config p = { config with FilePath := p } := by
          simp [applyPart, h1, h2]
        rw [ha, hb, if_pos rfl, List.getLastD_cons]

/-- Every token produced by `fields` is a non-empty string. -/
theorem fields_mem_ne_empty {s x : String} (h : x ∈ fields s) : x ≠ "" := by
  simp only [fields, List.mem_map, List.mem_filter] at h
  obtain ⟨cs, ⟨_, hcs⟩, rfl⟩ := h
  simp only [ne_eq, decide_not, Bool.not_eq_eq_eq_not, Bool.not_true, decide_eq_false_iff_not] at hcs
  intro hmk
  exact hcs (by simpa [String.ext_iff] using hmk)

/-- C7 (amended only in phrasing): for every remote-spec string whose token
list starts with a well-formed `user@host[:port]` token, if at least one of
the following tokens is bare (neither `password=`- nor
`private_key=`-prefixed), `StringToSSHPathConfig` succeeds and sets
`FilePath` to the last such bare token. -/
theorem stringToSSHPathConfig_last_bare_token (home s p0 user hostPort t : String)
    (rest : List String)
    (hf : fields s = p0 :: rest)
    (hat : goSplitChar '@' p0 = [user, hostPort])
    (hlast : (rest.filter isBareToken).getLast? = some t) :
    ∃ config, StringToSSHPathConfig home s = some config ∧ config.FilePath = t := by
  have htmem : t ∈ rest.filter isBareToken := List.mem_of_getLast?_eq_some hlast
  have htrest : t ∈ rest := List.mem_of_mem_filter htmem
  have htfields : t ∈ fields s := by rw [hf]; exact List.mem_cons_of_mem _ htrest
  have htne : t ≠ "" := fields_mem_ne_empty htfields
  have hrne : rest ≠ [] := by
    intro h
    subst h
    simp at htrest
  have hlen : ¬ ((p0 :: rest).length < 2) := by
    have : 0 < rest.length := List.length_pos.mpr hrne
    simp only [List.length_cons]
    omega
  have hFP : ∀ c0 : SSHPathConfig, (rest.foldl applyPart c0).FilePath = t := by
    intro c0
    rw [foldl_applyPart_filePath, List.getLastD_eq_getLast?, hlast]
    rfl
  simp only [StringToSSHPathConfig, hf, hat]
  rw [if_neg hlen, hFP, if_neg htne]
  exact ⟨_, rfl, hFP _⟩

/-- Witness for `stringToSSHPathConfig_last_bare_token`: the spec
`"u@h a b"` has the two bare tokens `a` and `b` and parses with `FilePath`
equal to the last one. -/
theorem stringToSSHPathConfig_last_bare_token_witness :
    ∃ config, StringToSSHPathConfig "HOME" "u@h a b" = some config
      ∧ config.FilePath = "b" :=
  stringToSSHPathConfig_last_bare_token "HOME" "u@h a b" "u@h" "u" "h" "b" ["a", "b"]
    (by decide) (by decide) (by decide)

/-- Success characterization of `processPaths`: when the loop completes
without aborting it yields at most one record per candidate, and every
record is `mkFileInfo` applied to one of the candidates. -/
theorem processPaths_some (env : Env) (isRemote : Bool) (cfg : SSHConfig) (pipe : String) :
    ∀ (l : List String) (infos : List FileInfo),
      (processPaths env isRemote cfg pipe l).fst = some infos →
      infos.length ≤ l.length ∧
        ∀ fi ∈ infos, ∃ p lc fs, p ∈ l ∧ fi = mkFileInfo p lc fs isRemote cfg pipe := by
  intro l
  induction l with
  | nil =>
    intro infos h
    simp only [processPaths, Option.some.injEq] at h
    subst h
    simp
  | cons q rest ih =>
    intro infos h
    simp only [processPaths] at h
    cases hPr : IsReadableFile env q false with
    | error e =>
      rw [hPr] at h
      simp at h
    | ok b =>
      rw [hPr] at h
      cases b with
      | false =>
        simp only at h
        obtain ⟨hlen, hmem⟩ := ih _ h
        refine ⟨by simpa using Nat.le_succ_of_le hlen, ?_⟩
        intro fi hfi
        obtain ⟨p, lc, fs, hp, hfi⟩ := hmem fi hfi
        exact ⟨p, lc, fs, List.mem_cons_of_mem _ hp, hfi⟩
      | true =>
        cases hSt : FileStats env q with
        | error e =>
          rw [hSt] at h
          cases e with
          | eof =>
            simp only [Option.map_eq_some'] at h
            obtain ⟨infos2, h2, rfl⟩ := h
            obtain ⟨hlen, hmem⟩ := ih _ h2
            refine ⟨by simpa using Nat.succ_le_succ hlen, ?_⟩
            intro fi hfi
            rcases List.mem_cons.mp hfi with rfl | hfi
            · exact ⟨q, 0, 0, List.mem_cons_self _ _, rfl⟩
            · obtain ⟨p, lc, fs, hp, hfi⟩ := hmem fi hfi
              exact ⟨p, lc, fs, List.mem_cons_of_mem _ hp, hfi⟩
          | other msg =>
            simp only at h
            obtain ⟨hlen, hmem⟩ := ih _ h
            refine ⟨by simpa using Nat.le_succ_of_le hlen, ?_⟩
            intro fi hfi
            obtain ⟨p, lc, fs, hp, hfi⟩ := hmem fi hfi
            exact ⟨p, lc, fs, List.mem_cons_of_mem _ hp, hfi⟩
        | ok v =>
          rw [hSt] at h
          simp only [Option.map_eq_some'] at h
          obtain ⟨infos2, h2, rfl⟩ := h
          obtain ⟨hlen, hmem⟩ := ih _ h2
          refine ⟨by simpa using Nat.succ_le_succ hlen, ?_⟩
          intro fi hfi
          rcases List.mem_cons.mp hfi with rfl | hfi
          · exact ⟨q, v.fst, v.snd, List.mem_cons_self _ _, rfl⟩
          · obtain ⟨p, lc, fs, hp, hfi⟩ := hmem fi hfi
            exact ⟨p, lc, fs, List.mem_cons_of_mem _ hp, hfi⟩

/-- Abort characterization of `processPaths`: a probe error on any candidate
in the list makes the whole loop return `none` (the Go `return nil`). -/
theorem processPaths_abort (env : Env) (isRemote : Bool) (cfg : SSHConfig) (pipe : String) :
    ∀ (l : List String) (p : String) (e : IOErr), p ∈ l →
      IsReadableFile env p false = Except.error e →
      (processPaths env isRemote cfg pipe l).fst = none := by
  intro l
  induction l with
  | nil =>
    intro p e hp _
    simp at hp
  | cons q rest ih =>
    intro p e hp herr
    simp only [processPaths]
    cases hPr : IsReadableFile env q false with
    | error e2 => simp
    | ok b =>
      have hpq : p ≠ q := by
        intro hEq
        subst hEq
        rw [herr] at hPr
        cases hPr
      have hprest : p ∈ rest := by
        rcases List.mem_cons.mp hp with hEq | h
        · exact absurd hEq hpq
        · exact h
      have hnone := ih p e hprest herr
      cases b with
      | false => simpa using hnone
      | true =>
        cases hSt : FileStats env q with
        | error e3 => cases e3 <;> simp [hnone]
        | ok v => simp [hnone]

/-- The per-candidate loop never emits the truncation warning. -/
theorem processPaths_no_warnLimit (env : Env) (isRemote : Bool) (cfg : SSHConfig) (pipe : String) :
    ∀ l : List String, LogEntry.warnLimit ∉ (processPaths env isRemote cfg pipe l).snd := by
  intro l
  induction l with
  | nil => simp [processPaths]
  | cons q rest ih =>
    simp only [processPaths]
    cases hPr : IsReadableFile env q false with
    | error e => simp
    | ok b =>
      cases b with
      | false => simpa using ih
      | true =>
        cases hSt : FileStats env q with
        | error e3 => cases e3 <;> simpa using ih
        | ok v => simpa using ih

/-- C2 (amended): probe failures are not isolated to the failing candidate.
If probing any candidate of the (possibly truncated) expansion fails with an
I/O error, `GetFileInfos` returns no records at all for that pattern: the
remaining candidates are dropped together with the failing one. -/
theorem getFileInfos_probe_error_aborts_pattern (env : Env) (pat pipe p : String)
    (limit : Nat) (isRemote : Bool) (cfg : SSHConfig) (paths : List String) (e : IOErr)
    (hls : env.listFiles pat = Except.ok paths)
    (hmem : p ∈ (if limit < paths.length then paths.take limit else paths))
    (herr : IsReadableFile env p false = Except.error e) :
    (GetFileInfos env pat limit isRemote cfg pipe).fst = [] := by
  have hne : paths ≠ [] := by
    intro h
    subst h
    simp at hmem
  by_cases hlt : limit < paths.length
  · rw [if_pos hlt] at hmem
    have habort := processPaths_abort env isRemote cfg pipe (paths.take limit) p e hmem herr
    rcases hPP : processPaths env isRemote cfg pipe (paths.take limit) with ⟨fstv, sndv⟩
    rw [hPP] at habort
    simp only at habort
    subst habort
    simp [GetFileInfos, hls, List.length_eq_zero, hne, hlt, hPP]
  · rw [if_neg hlt] at hmem
    have habort := processPaths_abort env isRemote cfg pipe paths p e hmem herr
    rcases hPP : processPaths env isRemote cfg pipe paths with ⟨fstv, sndv⟩
    rw [hPP] at habort
    simp only at habort
    subst habort
    simp [GetFileInfos, hls, List.length_eq_zero, hne, hlt, hPP]

/-- Witness for `getFileInfos_probe_error_aborts_pattern`: in `envProbeErr`
the candidate `/a` fails its probe, and the pattern yields no records. -/
theorem getFileInfos_probe_error_aborts_pattern_witness :
    (GetFileInfos envProbeErr "p" 10 false cfgH "/tmp/GOL-pipe").fst = [] :=
  getFileInfos_probe_error_aborts_pattern envProbeErr "p" "/tmp/GOL-pipe" "/a" 10 false cfgH
    ["/a", "/b"] (IOErr.other "permission denied") rfl (by simp) rfl

/-- C2 counterexample: the claim predicts that when probing `/a` fails, the
sibling candidate `/b` of the same pattern is still probed and contributes a
record. In `envProbeErr`, `/b` is a readable one-line text file, yet
`GetFileInfos` returns no records at all: the whole pattern is aborted. -/
theorem getFileInfos_probe_error_drops_survivors :
    IsReadableFile envProbeErr "/b" false = Except.ok true
    ∧ FileStats envProbeErr "/b" = Except.ok (1, 2)
    ∧ GetFileInfos envProbeErr "p" 10 false cfgH "/tmp/GOL-pipe" =
        ([], [LogEntry.errProbe "/a"]) :=
  ⟨rfl, rfl, rfl⟩

/-- The `Host` and `type` discipline of a single built record: the host is
the remote host for remote sources and empty otherwise; a `file`-tagged
record is always local (hence empty host) and an `ssh`-tagged record is
always remote (hence carries the configured host). -/
theorem mkFileInfo_host (p : String) (lc fs : Nat) (isRemote : Bool) (cfg : SSHConfig)
    (pipe : String) :
    (mkFileInfo p lc fs isRemote cfg pipe).Host = (if isRemote then cfg.Host else "")
    ∧ ((mkFileInfo p lc fs isRemote cfg pipe).type = TypeFile →
        (mkFileInfo p lc fs isRemote cfg pipe).Host = "")
    ∧ ((mkFileInfo p lc fs isRemote cfg pipe).type = TypeSSH →
        (mkFileInfo p lc fs isRemote cfg pipe).Host = cfg.Host) := by
  by_cases hr : isRemote = true <;> by_cases hp : p = pipe <;>
    simp [mkFileInfo, hr, hp, TypeFile, TypeSSH, TypeStdin]

/-- Every record in the output of `GetFileInfos` is `mkFileInfo` applied to
some candidate path and its computed stats. -/
theorem getFileInfos_fst_records (env : Env) (pat pipe : String) (limit : Nat)
    (isRemote : Bool) (cfg : SSHConfig) :
    ∀ fi ∈ (GetFileInfos env pat limit isRemote cfg pipe).fst,
      ∃ p lc fs, fi = mkFileInfo p lc fs isRemote cfg pipe := by
  intro fi hfi
  rcases hls : env.listFiles pat with e | paths
  · simp [GetFileInfos, hls] at hfi
  · by_cases hne : paths = []
    · subst hne
      simp [GetFileInfos, hls] at hfi
    · by_cases hlt : limit < paths.length
      · rcases hPP : processPaths env isRemote cfg pipe (paths.take limit) with ⟨fstv, sndv⟩
        simp only [GetFileInfos, hls, List.length_eq_zero, hne, hlt, if_true, if_false, hPP] at hfi
        cases fstv with
        | none => simp at hfi
        | some infos =>
          simp only at hfi
          obtain ⟨_, hmem⟩ := processPaths_some env isRemote cfg pipe (paths.take limit) infos
            (by rw [hPP])
          obtain ⟨p, lc, fs, _, hfi2⟩ := hmem fi hfi
          exact ⟨p, lc, fs, hfi2⟩
      · rcases hPP : processPaths env isRemote cfg pipe paths with ⟨fstv, sndv⟩
        simp only [GetFileInfos, hls, List.length_eq_zero, hne, hlt, if_true, if_false, hPP] at hfi
        cases fstv with
        | none => simp at hfi
        | some infos =>
          simp only at hfi
          obtain ⟨_, hmem⟩ := processPaths_some env isRemote cfg pipe paths infos
            (by rw [hPP])
          obtain ⟨p, lc, fs, _, hfi2⟩ := hmem fi hfi
          exact ⟨p, lc, fs, hfi2⟩

/-- C8 (amended): every record built by `GetFileInfos` carries the host of
the transport it was built from — empty for local sources, `cfg.Host` for
remote ones. In particular `file`-tagged records always have an empty
`Host` and `ssh`-tagged records carry the configured remote host; a
`stdin`-tagged record however keeps the remote host when a remote
candidate's path collides with the captured-pipe temp path. -/
theorem getFileInfos_host_invariant (env : Env) (pat pipe : String) (limit : Nat)
    (isRemote : Bool) (cfg : SSHConfig) :
    ∀ fi ∈ (GetFileInfos env pat limit isRemote cfg pipe).fst,
      fi.Host = (if isRemote then cfg.Host else "")
      ∧ (fi.type = TypeFile → fi.Host = "")
      ∧ (fi.type = TypeSSH → fi.Host = cfg.Host) := by
  intro fi hfi
  obtain ⟨p, lc, fs, rfl⟩ := getFileInfos_fst_records env pat pipe limit isRemote cfg fi hfi
  exact mkFileInfo_host p lc fs isRemote cfg pipe

/-- Witness for `getFileInfos_host_invariant`: the record built from the
remote candidate that collides with the pipe path in `envRemotePipe`. -/
theorem getFileInfos_host_invariant_witness :
    ({ FilePath := "/tmp/GOL-pipe", LinesCount := 1, FileSize := 2,
       type := "stdin", Host := "example.org" } : FileInfo).Host =
        (if (true : Bool) then cfgH.Host else "")
    ∧ (({ FilePath := "/tmp/GOL-pipe", LinesCount := 1, FileSize := 2,
          type := "stdin", Host := "example.org" } : FileInfo).type = TypeFile →
        ({ FilePath := "/tmp/GOL-pipe", LinesCount := 1, FileSize := 2,
           type := "stdin", Host := "example.org" } : FileInfo).Host = "")
    ∧ (({ FilePath := "/tmp/GOL-pipe", LinesCount := 1, FileSize := 2,
          type := "stdin", Host := "example.org" } : FileInfo).type = TypeSSH →
        ({ FilePath := "/tmp/GOL-pipe", LinesCount := 1, FileSize := 2,
           type := "stdin", Host := "example.org" } : FileInfo).Host = cfgH.Host) :=
  getFileInfos_host_invariant envRemotePipe "p" "/tmp/GOL-pipe" 10 true cfgH
    { FilePath := "/tmp/GOL-pipe", LinesCount := 1, FileSize := 2,
      type := "stdin", Host := "example.org" } (by decide)

/-- C8 counterexample: a remote listing whose candidate path equals the
captured-pipe temp path produces a record tagged `stdin` whose `Host` is
the (non-empty) remote host, refuting "records tagged `file` or `stdin`
always carry an empty `Host`". -/
theorem getFileInfos_stdin_host_nonempty :
    (GetFileInfos envRemotePipe "p" 10 true cfgH "/tmp/GOL-pipe").fst =
      [{ FilePath := "/tmp/GOL-pipe", LinesCount := 1, FileSize := 2,
         type := TypeStdin, Host := "example.org" }]
    ∧ TypeStdin ≠ TypeSSH ∧ ("example.org" : String) ≠ "" :=
  ⟨rfl, by decide, by decide⟩

/-- C5: limit enforcement. When the expansion of a pattern yields more than
`limit` candidates, `GetFileInfos` draws records only from the first
`limit` of them (so the pattern contributes at most `limit` records) and a
truncation warning is recorded; when the expansion yields at most `limit`
candidates nothing is truncated and no warning is recorded. -/
theorem getFileInfos_limit_enforcement (env : Env) (pat pipe : String) (limit : Nat)
    (isRemote : Bool) (cfg : SSHConfig) (paths : List String)
    (hls : env.listFiles pat = Except.ok paths) (hne : paths ≠ []) :
    (limit < paths.length →
      (GetFileInfos env pat limit isRemote cfg pipe).fst.length ≤ limit
      ∧ (∀ fi ∈ (GetFileInfos env pat limit isRemote cfg pipe).fst,
          fi.FilePath ∈ paths.take limit)
      ∧ LogEntry.warnLimit ∈ (GetFileInfos env pat limit isRemote cfg pipe).snd)
    ∧ (paths.length ≤ limit →
      (GetFileInfos env pat limit isRemote cfg pipe).fst.length ≤ paths.length
      ∧ (∀ fi ∈ (GetFileInfos env pat limit isRemote cfg pipe).fst, fi.FilePath ∈ paths)
      ∧ LogEntry.warnLimit ∉ (GetFileInfos env pat limit isRemote cfg pipe).snd) := by
  constructor
  · intro hlt
    rcases hPP : processPaths env isRemote cfg pipe (paths.take limit) with ⟨fstv, sndv⟩
    have hG : GetFileInfos env pat limit isRemote cfg pipe =
        (fstv.getD [], LogEntry.warnLimit :: sndv) := by
      cases fstv <;>
        simp [GetFileInfos, hls, List.length_eq_zero, hne, hlt, hPP]
    rw [hG]
    refine ⟨?_, ?_, ?_⟩
    · cases fstv with
      | none => simp
      | some infos =>
        obtain ⟨hlen, _⟩ := processPaths_some env isRemote cfg pipe (paths.take limit) infos
          (by rw [hPP])
        show infos.length ≤ limit
        calc infos.length ≤ (paths.take limit).length := hlen
          _ = min limit paths.length := List.length_take _ _
          _ ≤ limit := min_le_left _ _
    · cases fstv with
      | none => simp
      | some infos =>
        obtain ⟨_, hmem⟩ := processPaths_some env isRemote cfg pipe (paths.take limit) infos
          (by rw [hPP])
        intro fi hfi
        obtain ⟨p, lc, fs, hp, rfl⟩ := hmem fi hfi
        exact hp
    · exact List.mem_cons_self _ _
  · intro hle
    have hlt : ¬ limit < paths.length := by omega
    rcases hPP : processPaths env isRemote cfg pipe paths with ⟨fstv, sndv⟩
    have hG : GetFileInfos env pat limit isRemote cfg pipe = (fstv.getD [], sndv) := by
      cases fstv <;>
        simp [GetFileInfos, hls, List.length_eq_zero, hne, hlt, hPP]
    rw [hG]
    refine ⟨?_, ?_, ?_⟩
    · cases fstv with
      | none => simp
      | some infos =>
        obtain ⟨hlen, _⟩ := processPaths_some env isRemote cfg pipe paths infos (by rw [hPP])
        exact hlen
    · cases fstv with
      | none => simp
      | some infos =>
        obtain ⟨_, hmem⟩ := processPaths_some env isRemote cfg pipe paths infos (by rw [hPP])
        intro fi hfi
        obtain ⟨p, lc, fs, hp, rfl⟩ := hmem fi hfi
        exact hp
    · have hnw := processPaths_no_warnLimit env isRemote cfg pipe paths
      rw [hPP] at hnw
      simpa using hnw

/-- Witness for `getFileInfos_limit_enforcement`: a pattern expanding to
three files under `limit = 2` keeps at most two records and logs the
truncation warning. -/
theorem getFileInfos_limit_enforcement_witness :
    (GetFileInfos envThreeFiles "p" 2 false cfgH "/tmp/GOL-pipe").fst.length ≤ 2
    ∧ LogEntry.warnLimit ∈ (GetFileInfos envThreeFiles "p" 2 false cfgH "/tmp/GOL-pipe").snd :=
  ⟨((getFileInfos_limit_enforcement envThreeFiles "p" "/tmp/GOL-pipe" 2 false cfgH
      ["/l1", "/l2", "/l3"] rfl (by decide)).1 (by decide)).1,
   ((getFileInfos_limit_enforcement envThreeFiles "p" "/tmp/GOL-pipe" 2 false cfgH
      ["/l1", "/l2", "/l3"] rfl (by decide)).1 (by decide)).2.2⟩

/-- The registry-key comparison is componentwise string equality. -/
theorem eqFileInfo_iff (a b : FileInfo) :
    eqFileInfo a b = true ↔ a.FilePath = b.FilePath ∧ a.type = b.type ∧ a.Host = b.Host := by
  simp [eqFileInfo, and_assoc]

/-- `compactAux` only removes elements: its output is a subsequence of its
input. -/
theorem compactAux_sublist (eq : FileInfo → FileInfo → Bool) :
    ∀ (l : List FileInfo) (prev : FileInfo), List.Sublist (compactAux eq prev l) l := by
  intro l
  induction l with
  | nil =>
    intro prev
    simp [compactAux]
  | cons b rest ih =>
    intro prev
    simp only [compactAux]
    by_cases h : eq prev b = true
    · rw [if_pos h]
      exact List.Sublist.cons _ (ih b)
    · rw [if_neg h]
      exact List.Sublist.cons₂ _ (ih b)

/-- No two adjacent survivors of `compactAux eqFileInfo` share the registry
key, where `k` is any already-kept element whose key agrees with the
running predecessor `prev`. -/
theorem compactAux_chain :
    ∀ (l : List FileInfo) (prev k : FileInfo), eqFileInfo k prev = true →
      List.Chain' (fun a b => eqFileInfo a b = false) (k :: compactAux eqFileInfo prev l) := by
  intro l
  induction l with
  | nil =>
    intro prev k _
    simp [compactAux]
  | cons b rest ih =>
    intro prev k hk
    simp only [compactAux]
    by_cases h : eqFileInfo prev b = true
    · rw [if_pos h]
      apply ih b k
      rw [eqFileInfo_iff] at hk h ⊢
      exact ⟨hk.1.trans h.1, hk.2.1.trans h.2.1, hk.2.2.trans h.2.2⟩
    · rw [if_neg h]
      refine List.chain'_cons.mpr ⟨?_, ih b b (by rw [eqFileInfo_iff]; exact ⟨rfl, rfl, rfl⟩)⟩
      cases hkb : eqFileInfo k b with
      | false => rfl
      | true =>
        exfalso
        rw [eqFileInfo_iff] at hk hkb
        apply h
        rw [eqFileInfo_iff]
        exact ⟨hk.1.symm.trans hkb.1, hk.2.1.symm.trans hkb.2.1, hk.2.2.symm.trans hkb.2.2⟩

/-- C1 (amended): `UniqueFileInfos` deduplicates only consecutive runs: the
output is a subsequence of the input (first-seen order preserved, first
element kept) in which no two adjacent entries share the
`(FilePath, Type, Host)` triple. Duplicate triples that are not adjacent in
the input are all retained. -/
theorem uniqueFileInfos_adjacent_dedup (l : List FileInfo) :
    List.Sublist (UniqueFileInfos l) l
    ∧ List.Chain' (fun a b => eqFileInfo a b = false) (UniqueFileInfos l)
    ∧ (UniqueFileInfos l).head? = l.head? := by
  cases l with
  | nil => simp [UniqueFileInfos, compactFunc]
  | cons a rest =>
    refine ⟨?_, ?_, rfl⟩
    · exact List.Sublist.cons₂ _ (compactAux_sublist _ rest a)
    · exact compactAux_chain rest a a (by rw [eqFileInfo_iff]; exact ⟨rfl, rfl, rfl⟩)

/-- C1 counterexample: the input `[fiA, fiB, fiA]` contains the key of
`fiA` twice in non-adjacent positions; `UniqueFileInfos` keeps all three
records, so two output entries share the `(FilePath, Type, Host)` triple —
refuting "exactly one entry for each triple that occurs in the input". -/
theorem uniqueFileInfos_nonadjacent_duplicate_kept :
    UniqueFileInfos [fiA, fiB, fiA] = [fiA, fiB, fiA]
    ∧ ((UniqueFileInfos [fiA, fiB, fiA]).filter (fun fi => eqFileInfo fi fiA)).length = 2 :=
  ⟨rfl, rfl⟩

/-- C9 (amended): provided the private-key file (when a path is configured)
can be read and parsed — yielding signer `sg` — the connection succeeds iff
at least one configured method is accepted by the server, and it fails with
an authentication error iff none is. (The counterexample shows that when
the key file cannot be read, `sshConnect` aborts with that read error even
if password authentication would succeed.) -/
theorem sshConnect_auth_policy (readKey : String → Except IOErr (List Nat))
    (parseKey : List Nat → Option Nat) (accepts : AuthMethod → Bool) (config : SSHConfig)
    (k : List Nat) (sg : Nat)
    (hrk : config.PrivateKeyPath ≠ "" → readKey config.PrivateKeyPath = Except.ok k)
    (hpk : config.PrivateKeyPath ≠ "" → parseKey k = some sg) :
    (sshConnect readKey parseKey accepts config = Except.ok () ↔
      ((config.Password ≠ "" ∧ accepts (AuthMethod.password config.Password) = true)
       ∨ (config.PrivateKeyPath ≠ "" ∧ accepts (AuthMethod.publicKeys sg) = true)))
    ∧ (sshConnect readKey parseKey accepts config = Except.error ConnError.auth ↔
      ¬ ((config.Password ≠ "" ∧ accepts (AuthMethod.password config.Password) = true)
       ∨ (config.PrivateKeyPath ≠ "" ∧ accepts (AuthMethod.publicKeys sg) = true))) := by
  by_cases hkp : config.PrivateKeyPath = ""
  · by_cases hpw : config.Password = ""
    · simp [sshConnect, hkp, hpw, dialSucceeds]
    · cases hac : accepts (AuthMethod.password config.Password) <;>
        simp [sshConnect, hkp, hpw, dialSucceeds, hac]
  · have hrk2 := hrk hkp
    have hpk2 := hpk hkp
    by_cases hpw : config.Password = ""
    · cases hak : accepts (AuthMethod.publicKeys sg) <;>
        simp [sshConnect, hkp, hpw, dialSucceeds, hrk2, hpk2, hak]
    · cases hac : accepts (AuthMethod.password config.Password) <;>
        cases hak : accepts (AuthMethod.publicKeys sg) <;>
        simp [sshConnect, hkp, hpw, dialSucceeds, hrk2, hpk2, hac, hak]

/-- Witness for `sshConnect_auth_policy`: key-only configuration against a
server accepting public-key authentication. -/
theorem sshConnect_auth_policy_witness :
    (sshConnect readKeyOk parseKeyOk acceptsKeyOnly cfgKeyOnly = Except.ok () ↔
      ((cfgKeyOnly.Password ≠ ""
          ∧ acceptsKeyOnly (AuthMethod.password cfgKeyOnly.Password) = true)
       ∨ (cfgKeyOnly.PrivateKeyPath ≠ ""
          ∧ acceptsKeyOnly (AuthMethod.publicKeys 0) = true)))
    ∧ (sshConnect readKeyOk parseKeyOk acceptsKeyOnly cfgKeyOnly = Except.error ConnError.auth ↔
      ¬ ((cfgKeyOnly.Password ≠ ""
          ∧ acceptsKeyOnly (AuthMethod.password cfgKeyOnly.Password) = true)
       ∨ (cfgKeyOnly.PrivateKeyPath ≠ ""
          ∧ acceptsKeyOnly (AuthMethod.publicKeys 0) = true))) :=
  sshConnect_auth_policy readKeyOk parseKeyOk acceptsKeyOnly cfgKeyOnly [1] 0
    (fun _ => rfl) (fun _ => rfl)

/-- C9 counterexample: with a password configured and accepted by the
server but a configured private-key path whose file cannot be read,
`sshConnect` fails with the read error: the connection does not succeed
although a configured method (the password) succeeds, refuting "the
connection succeeds whenever at least one of the configured methods
succeeds". -/
theorem sshConnect_key_read_failure_blocks_password :
    acceptsPasswordOnly (AuthMethod.password cfgPwKey.Password) = true
    ∧ cfgPwKey.Password ≠ ""
    ∧ sshConnect readKeyFail parseKeyOk acceptsPasswordOnly cfgPwKey =
        Except.error (ConnError.keyRead (IOErr.other "no such file")) :=
  ⟨rfl, by decide, rfl⟩

end Gol
